import Mathlib

/-!
# homehqtt: the intercepting proxy's tee, state tracker and publish path

A shallow embedding of `proxy.go`.

* Go strings are Lean `String`s; `[]byte(s)` is `bytes s` (the UTF-8 encoding).
* Go maps with string keys are `GoMap`s: entry lists on which `get?` reads the
  first entry of a key and `set` overwrites it in place or appends a new one.
  The maps of the store are never nil (both `track` methods create a gateway
  with `make` for every map), so there is no nil case.
* Go `int` is `Int` wrapped to 64 bits by `wrapInt`.
* Pointers (`*LCGW`, `*Device`) are modelled by value: every gateway and every
  device is reachable through exactly one map entry, so a mutation through the
  pointer is a write-back into that entry.
* What a function does to the outside world is returned as a list of effects,
  in program order.
-/

set_option autoImplicit false

namespace Homehqtt

/-! ## Bytes, integers, maps -/

/-- Conversion `[]byte(s)` of a Go string. -/
def bytes (s : String) : List UInt8 :=
  s.data.flatMap String.utf8EncodeChar

/-- Go's `int` on a 64-bit platform: two's complement wrap-around. -/
def wrapInt (x : Int) : Int :=
  (x + 2 ^ 63) % 2 ^ 64 - 2 ^ 63

/-- Smallest Go `int`. -/
def minInt : Int := -(2 ^ 63)

/-- Largest Go `int`. -/
def maxInt : Int := 2 ^ 63 - 1

/-- Go map with string keys. -/
structure GoMap (β : Type) where
  entries : List (String × β)
  deriving DecidableEq, Repr

namespace GoMap

variable {β : Type}

/-- Result of `make(map[string]β)`. -/
def empty : GoMap β := ⟨[]⟩

/-- Lookup in an entry list. -/
def findEntry (k : String) : List (String × β) → Option β
  | [] => none
  | (k', v) :: t => if k' = k then some v else findEntry k t

/-- Overwrite the entry of `k`, or append one. -/
def putEntry (k : String) (v : β) : List (String × β) → List (String × β)
  | [] => [(k, v)]
  | (k', v') :: t => if k' = k then (k, v) :: t else (k', v') :: putEntry k v t

/-- Two-result read `v, ok := m[k]`: `none` is `ok == false`. -/
def get? (m : GoMap β) (k : String) : Option β := findEntry k m.entries

/-- Assignment `m[k] = v`. -/
def set (m : GoMap β) (k : String) (v : β) : GoMap β := ⟨putEntry k v m.entries⟩

/-- Keys of the map. -/
def keys (m : GoMap β) : List String := m.entries.map Prod.fst

end GoMap

/-- Statement `m[k]++` on a `map[string]int`; a missing key reads as 0. -/
def incr (m : GoMap Int) (k : String) : GoMap Int :=
  m.set k (wrapInt ((m.get? k).getD 0 + 1))

/-! ## Tee -/

/-- An `io.ReadCloser`: the chunks its `Read` calls deliver, and the error (if
any, other than `io.EOF`) that ends the stream. -/
structure ReadCloser where
  chunks : List (List UInt8)
  err : Option String
  closed : Bool
  deriving DecidableEq, Repr

/-- Function `ioutil.ReadAll`: the bytes read before EOF or the first error. -/
def ReadAll (r : ReadCloser) : List UInt8 × Option String :=
  (r.chunks.flatten, r.err)

/-- Method `r.Close()`. -/
def ReadCloser.Close (r : ReadCloser) : ReadCloser := { r with closed := true }

/-- Builtin `make([]byte, n)`. -/
def makeBytes (n : Nat) : List UInt8 := List.replicate n 0

/-- Builtin `copy(dst, src)`: overwrites the first `min (len dst) (len src)`
elements of `dst`. -/
def copyBytes (dst src : List UInt8) : List UInt8 :=
  src.take (min dst.length src.length) ++ dst.drop (min dst.length src.length)

/-- A `*bytes.Buffer` made by `bytes.NewBuffer`: its unread contents. -/
structure Buffer where
  buf : List UInt8
  deriving DecidableEq, Repr

/-- Function `bytes.NewBuffer`. -/
def NewBuffer (b : List UInt8) : Buffer := ⟨b⟩

/-- Function `tee`: the three results (a `none` buffer is `nil`, a `none`
error is `nil`) and the source after the call. -/
def tee (r : ReadCloser) : (Option Buffer × Option Buffer × Option String) × ReadCloser :=
  let (buf1, err) := ReadAll r
  let r := r.Close
  match err with
  | some e => ((none, none, some ("request body read error: " ++ e)), r)
  | none =>
    let buf2 := makeBytes buf1.length
    let buf2 := copyBytes buf2 buf1
    ((some (NewBuffer buf1), some (NewBuffer buf2), none), r)

/-! ## Publish pipeline -/

/-- An `error` returned by the MQTT client. `client.ErrAlreadyConnected` is the
one value `publish` compares against; every other error is `other`. -/
inductive MqttError where
  | ErrAlreadyConnected
  | other (msg : String)
  deriving DecidableEq, Repr

/-- Struct `client.PublishOptions`, the fields `publish` sets. -/
structure PublishOptions where
  TopicName : List UInt8
  Message : List UInt8
  Retain : Bool
  deriving DecidableEq, Repr

/-- The MQTT client as `publish` sees it: the error (`none` is `nil`) that the
`Connect` call of loop iteration `i` returns, and the error that the `Publish`
call of iteration `i` returns if that call is made. `Disconnect` returns
nothing that `publish` reads. -/
structure Client where
  Connect : Nat → Option MqttError
  Publish : Nat → Option MqttError

/-- What `publish` does, in program order. -/
inductive BusEvent where
  | log (line : String)
  | logErr (err : MqttError)
  | Disconnect
  | Sleep (d : Int)
  | Connect (res : Option MqttError)
  | Publish (opts : PublishOptions) (res : Option MqttError)
  deriving DecidableEq, Repr

/-- Constant `time.Second`, in nanoseconds. -/
def Second : Int := 1000000000

/-- The `if i > 0` block at the head of the retry loop. -/
def retryPrelude (i : Nat) : List BusEvent :=
  if i > 0 then
    [BusEvent.log ("publish retrying, attempt " ++ toString (i + 1) ++ "\n"),
     BusEvent.Disconnect,
     BusEvent.Sleep (1 * Second)]
  else []

/-- The loop `for i := 0; i < p.mqttRetries; i++` of `publish`, started at `i`
with `fuel` iterations left (`fuel = mqttRetries - i`). -/
def publishLoop (c : Client) (opts : PublishOptions) : Nat → Nat → List BusEvent
  | 0, _ => []
  | fuel + 1, i =>
    retryPrelude i ++
      (let err := c.Connect i
       if err ≠ none ∧ err ≠ some MqttError.ErrAlreadyConnected then
         -- continue
         BusEvent.Connect err :: publishLoop c opts fuel (i + 1)
       else
         match c.Publish i with
         | none =>
           -- break
           [BusEvent.Connect err, BusEvent.Publish opts none]
         | some e =>
           [BusEvent.Connect err, BusEvent.Publish opts (some e), BusEvent.logErr e]
             ++ publishLoop c opts fuel (i + 1))

/-- Topic built by the first loop of `publish`. -/
def topicOf (mqttTopic : String) (suffixes : List String) : List UInt8 :=
  suffixes.foldl (fun topic s => topic ++ bytes ("/" ++ s)) (bytes mqttTopic)

/-! ## Data shapes -/

/-- A name/value pair of a measurement or of a command. -/
structure Parameter where
  Name : String
  Value : String
  deriving DecidableEq, Repr

/-- One element of `Request.Measurements`. -/
structure Measurement where
  DeviceID : String
  Parameters : List Parameter
  Timestamp : Int
  deriving DecidableEq, Repr

/-- Payload sent by the gateway. -/
structure Request where
  Command : String
  GatewayID : String
  Measurements : List Measurement
  deriving DecidableEq, Repr

/-- The embedded `Command` struct of a `Response`. -/
structure Command where
  ID : Int
  DeviceID : String
  Name : String
  Parameters : List Parameter
  deriving DecidableEq, Repr

/-- Payload sent back to the gateway. -/
structure Response where
  Command : Command
  ResultCode : String
  deriving DecidableEq, Repr

/-- A device managed by the gateway. -/
structure Device where
  Parameters : GoMap String
  deriving DecidableEq, Repr

/-- The gateway; `LastResult` is a `time.Time`, here a number of nanoseconds
(0 is the zero time). -/
structure LCGW where
  GatewayID : String
  Parameters : GoMap String
  Devices : GoMap Device
  Commands : GoMap Int
  Requests : GoMap Int
  Results : GoMap Int
  LastResult : Int
  deriving DecidableEq, Repr

/-- The fields of `proxy` read or written by `publish`, `track` and `debug`. -/
structure proxy where
  mqttRetries : Int
  mqttTopic : String
  devices : GoMap LCGW
  deriving DecidableEq, Repr

/-- Method `publish`: the events on the bus client and the log. -/
def proxy.publish (p : proxy) (c : Client) (msg : List UInt8) (suffixes : List String) :
    List BusEvent :=
  let topic := topicOf p.mqttTopic suffixes
  publishLoop c { TopicName := topic, Message := msg, Retain := true } p.mqttRetries.toNat 0

/-! ## Device-state tracker -/

/-- What a `track` method or `debug` does besides changing the store: the
mutex operations, the log lines and the calls of `p.publish`. -/
inductive Effect where
  | Lock
  | Unlock
  | log (line : String)
  | publish (msg : List UInt8) (suffixes : List String)
  deriving DecidableEq, Repr

/-- The composite literal `&LCGW{...}` of both `track` methods. -/
def newLCGW (id : String) : LCGW :=
  { GatewayID := id
    Devices := GoMap.empty
    Parameters := GoMap.empty
    Requests := GoMap.empty
    Results := GoMap.empty
    Commands := GoMap.empty
    LastResult := 0 }

/-- A `for _, x := range xs` loop whose body changes a state and has effects:
the final state and the effects of all iterations, in order. -/
def forRange {σ α : Type} (body : σ → α → σ × List Effect) : σ → List α → σ × List Effect
  | s, [] => (s, [])
  | s, x :: xs =>
    let (s, es) := body s x
    let (s, es') := forRange body s xs
    (s, es ++ es')

/-- Body of `for _, k := range m.Parameters`, on the map `params`. -/
def parameterStep (DeviceID : String) (params : GoMap String) (k : Parameter) :
    GoMap String × List Effect :=
  match params.get? k.Name with
  | some v =>
    if v = k.Value then
      -- continue
      (params, [])
    else
      (params.set k.Name k.Value,
       [Effect.log ("changing " ++ k.Name ++ " from " ++ v ++ " to " ++ k.Value
          ++ " for device " ++ DeviceID)])
  | none => (params.set k.Name k.Value, [])

/-- Body of `for _, m := range r.Measurements`, on the gateway `gw`.
`marshal` is `json.Marshal` on a `map[string]string`. -/
def measurementStep (marshal : GoMap String → List UInt8) (GatewayID : String)
    (gw : LCGW) (m : Measurement) : LCGW × List Effect :=
  if m.DeviceID ≠ GatewayID then
    -- Got measurements for a child device
    let (d, gw) :=
      match gw.Devices.get? m.DeviceID with
      | some d => (d, gw)
      | none =>
        let d : Device := { Parameters := GoMap.empty }
        (d, { gw with Devices := gw.Devices.set m.DeviceID d })
    let (params, es) := forRange (parameterStep m.DeviceID) d.Parameters m.Parameters
    -- `params` is `d.Parameters`, and `d` is the entry of `gw.Devices`
    ({ gw with Devices := gw.Devices.set m.DeviceID { d with Parameters := params } },
     es ++ [Effect.publish (marshal params) [m.DeviceID]])
  else
    let (params, es) := forRange (parameterStep m.DeviceID) gw.Parameters m.Parameters
    ({ gw with Parameters := params }, es ++ [Effect.publish (marshal params) [m.DeviceID]])

/-- Method `(*Request).track`: the store after the call and the effects. -/
def Request.track (marshal : GoMap String → List UInt8) (r : Request) (p : proxy) :
    proxy × List Effect :=
  let gw :=
    match p.devices.get? r.GatewayID with
    | some gw => gw
    | none => newLCGW r.GatewayID
  let gw := { gw with Requests := incr gw.Requests r.Command }
  let (gw, es) :=
    if r.Command = "postMeasurements" then
      forRange (measurementStep marshal r.GatewayID) gw r.Measurements
    else (gw, [])
  -- `gw` is the entry `p.devices[r.GatewayID]`; `defer p.Unlock()` runs last
  ({ p with devices := p.devices.set r.GatewayID gw }, [Effect.Lock] ++ es ++ [Effect.Unlock])

/-- Method `(*Response).track`; `now` is the value of `time.Now()`. -/
def Response.track (now : Int) (r : Response) (p : proxy) : proxy × List Effect :=
  let gw :=
    match p.devices.get? r.Command.DeviceID with
    | some gw => gw
    | none => newLCGW r.Command.DeviceID
  let gw := if r.Command.Name ≠ "" then { gw with Requests := incr gw.Requests r.Command.Name } else gw
  let gw := { gw with Results := incr gw.Results r.ResultCode }
  let gw := { gw with LastResult := now }
  ({ p with devices := p.devices.set r.Command.DeviceID gw }, [Effect.Lock, Effect.Unlock])

/-- What `debug` writes to the `http.ResponseWriter`. -/
structure HttpReply where
  status : Nat
  body : List UInt8
  deriving DecidableEq, Repr

/-- Method `debug`. `marshalDebug` is `json.Marshal` on the struct of the store
and the goroutine count (an error is `Except.error` with its text),
`numGoroutine` the value of `runtime.NumGoroutine()`. -/
def proxy.debug (marshalDebug : GoMap LCGW → Int → Except String (List UInt8)) (p : proxy)
    (numGoroutine : Int) : HttpReply × List Effect :=
  match marshalDebug p.devices numGoroutine with
  | Except.error e => ({ status := 500, body := bytes e ++ [10] }, [])
  | Except.ok b => ({ status := 200, body := b }, [])

/-! ## Observations on effect lists -/

/-- The calls of `p.publish` in a list of effects: message and suffixes. -/
def publishCalls : List Effect → List (List UInt8 × List String)
  | [] => []
  | Effect.publish msg sfx :: es => (msg, sfx) :: publishCalls es
  | _ :: es => publishCalls es

/-- The log lines in a list of effects. -/
def logLines : List Effect → List String
  | [] => []
  | Effect.log l :: es => l :: logLines es
  | _ :: es => logLines es

/-- The gateway that a `track` method binds to `gw` for the key `id`: the
entry of the store, or a fresh gateway when there is none. -/
def gatewayOf (p : proxy) (id : String) : LCGW :=
  match p.devices.get? id with
  | some gw => gw
  | none => newLCGW id

/-- The parameter map addressed by a measurement for `DeviceID` sent by the
gateway `GatewayID`: the gateway's own map, or the map of that device (empty
as long as the device does not exist). -/
def targetParams (GatewayID : String) (gw : LCGW) (DeviceID : String) : GoMap String :=
  if DeviceID = GatewayID then gw.Parameters
  else
    match gw.Devices.get? DeviceID with
    | some d => d.Parameters
    | none => GoMap.empty

/-- The gateway after one iteration of the measurement loop. -/
def gatewayStep (marshal : GoMap String → List UInt8) (GatewayID : String) (gw : LCGW)
    (m : Measurement) : LCGW :=
  (measurementStep marshal GatewayID gw m).1

/-- The request cut down to its first `j` measurements. -/
def Request.upTo (r : Request) (j : Nat) : Request :=
  { r with Measurements := r.Measurements.take j }

/-- Read `m[k]` of a `map[string]int`: a missing key reads as 0. -/
def count (m : GoMap Int) (k : String) : Int := (m.get? k).getD 0

/-- A telemetry post of one measurement with one parameter. -/
def post (GatewayID DeviceID Name Value : String) (Timestamp : Int) : Request :=
  { Command := "postMeasurements"
    GatewayID := GatewayID
    Measurements :=
      [{ DeviceID := DeviceID, Parameters := [{ Name := Name, Value := Value }],
         Timestamp := Timestamp }] }

/-- A store whose gateway "gw1" has counted the largest `int` number of
"SUCCESS" results. -/
def saturatedStore : proxy :=
  { mqttRetries := 5
    mqttTopic := "home"
    devices := ⟨[("gw1", { newLCGW "gw1" with Results := ⟨[("SUCCESS", maxInt)]⟩ })]⟩ }

/-- A response with result code "SUCCESS" and an empty command name for the
gateway "gw1". -/
def successResponse : Response :=
  { Command := { ID := 7, DeviceID := "gw1", Name := "", Parameters := [] }
    ResultCode := "SUCCESS" }

/-- A stand-in for `json.Marshal` on a `map[string]string`, used where a
concrete encoder is needed to evaluate an example: the entries as
`"name":"value"` between braces, without escaping or sorting. -/
def sampleMarshal (m : GoMap String) : List UInt8 :=
  bytes ("\x7b" ++ ",".intercalate (m.entries.map (fun kv => "\"" ++ kv.1 ++ "\":\"" ++ kv.2 ++ "\""))
    ++ "\x7d")

/-- A telemetry post of the gateway "gw1" with a measurement for the device
"door" and one for the gateway itself. -/
def sampleRequest : Request :=
  { Command := "postMeasurements"
    GatewayID := "gw1"
    Measurements :=
      [{ DeviceID := "door", Parameters := [⟨"doorStatus", "open"⟩, ⟨"lqi", "90"⟩],
         Timestamp := 1 },
       { DeviceID := "gw1", Parameters := [⟨"firmware", "1.2"⟩], Timestamp := 2 }] }

/-- Three posts for the triple ("gw1", "door", "doorStatus") with the values
"open", "closed", "closed", handled in order from the empty store: the final
store and all effects. -/
def doorRun : proxy × List Effect :=
  let s1 := Request.track sampleMarshal (post "gw1" "door" "doorStatus" "open" 1)
    ⟨5, "home", GoMap.empty⟩
  let s2 := Request.track sampleMarshal (post "gw1" "door" "doorStatus" "closed" 2) s1.1
  let s3 := Request.track sampleMarshal (post "gw1" "door" "doorStatus" "closed" 3) s2.1
  (s3.1, s1.2 ++ s2.2 ++ s3.2)

/-- A stand-in for `json.Marshal` on the struct that `debug` builds, used
where a concrete encoder is needed to evaluate an example: the gateway keys
and the goroutine count. -/
def sampleMarshalDebug (devices : GoMap LCGW) (n : Int) : Except String (List UInt8) :=
  Except.ok (bytes (",".intercalate devices.keys ++ ":" ++ toString n))

/-- The line logged when a tracked value changes. -/
def changeLine (Name old new DeviceID : String) : String :=
  "changing " ++ Name ++ " from " ++ old ++ " to " ++ new ++ " for device " ++ DeviceID

/-- Number of `Connect` calls in a run of `publish`. -/
def connectCount (t : List BusEvent) : Nat :=
  t.countP (fun e => match e with | BusEvent.Connect _ => true | _ => false)

/-- Number of `Publish` calls in a run of `publish`. -/
def publishCount (t : List BusEvent) : Nat :=
  t.countP (fun e => match e with | BusEvent.Publish _ _ => true | _ => false)

/-- Number of `time.Sleep` calls in a run of `publish`. -/
def sleepCount (t : List BusEvent) : Nat :=
  t.countP (fun e => match e with | BusEvent.Sleep _ => true | _ => false)

/-- The errors written by `log.Println(err)` in a run of `publish`. -/
def loggedErrors : List BusEvent → List MqttError
  | [] => []
  | BusEvent.logErr e :: t => e :: loggedErrors t
  | _ :: t => loggedErrors t

/-- Every entry written to the log in a run of `publish`, of either kind. -/
def logEntries (t : List BusEvent) : List BusEvent :=
  t.filter (fun e => match e with | BusEvent.log _ => true | BusEvent.logErr _ => true | _ => false)

/-- In iteration `i`, `Connect` returns nil or `ErrAlreadyConnected`, so that
`Publish` is called. -/
def connectPasses (c : Client) (i : Nat) : Bool :=
  decide (c.Connect i = none) || decide (c.Connect i = some MqttError.ErrAlreadyConnected)

/-- Iteration `i` ends in a successful `Publish`. -/
def attemptSucceeds (c : Client) (i : Nat) : Bool :=
  connectPasses c i && decide (c.Publish i = none)

/-- A client whose `Connect` is refused on every call. -/
def refusingClient : Client :=
  { Connect := fun _ => some (MqttError.other "connection refused")
    Publish := fun _ => none }

/-- A client that refuses the first `Connect`, then fails one `Publish`, then
reports `ErrAlreadyConnected` and accepts the `Publish`. -/
def recoveringClient : Client :=
  { Connect := fun i =>
      if i = 0 then some (MqttError.other "connection refused")
      else if i = 1 then none else some MqttError.ErrAlreadyConnected
    Publish := fun i => if i = 1 then some (MqttError.other "broken pipe") else none }

/-- A client that connects at once and whose `Publish` fails on every call. -/
def brokenPipeClient : Client :=
  { Connect := fun _ => none
    Publish := fun _ => some (MqttError.other "broken pipe") }

/-! ## Theorems -/

theorem copyBytes_make (b : List UInt8) : copyBytes (makeBytes b.length) b = b := by
  simp [copyBytes, makeBytes]

/-- C1: when the full read of the source succeeds with content `b`, `tee`
returns no error and two buffers that both hold exactly `b`. -/
theorem tee_identical (r : ReadCloser) (b : List UInt8) (h : ReadAll r = (b, none)) :
    (tee r).1 = (some ⟨b⟩, some ⟨b⟩, none) := by
  have h1 : r.chunks.flatten = b := congrArg Prod.fst h
  have h2 : r.err = none := congrArg Prod.snd h
  simp [tee, ReadAll, NewBuffer, copyBytes_make, h1, h2]

theorem tee_identical_witness :
    ReadAll ⟨[[104, 105], [33]], none, false⟩ = ([104, 105, 33], none) ∧
      (tee ⟨[[104, 105], [33]], none, false⟩).1
        = (some ⟨[104, 105, 33]⟩, some ⟨[104, 105, 33]⟩, none) :=
  ⟨by decide, tee_identical ⟨[[104, 105], [33]], none, false⟩ [104, 105, 33] (by decide)⟩


/-! ### Publish pipeline -/

theorem bytes_append (a b : String) : bytes (a ++ b) = bytes a ++ bytes b := by
  simp [bytes, String.data_append]

theorem topicOf_eq (root : String) (suffixes : List String) :
    topicOf root suffixes = bytes root ++ suffixes.flatMap (fun s => bytes "/" ++ bytes s) := by
  unfold topicOf
  generalize bytes root = acc
  induction suffixes generalizing acc with
  | nil => simp
  | cons s ss ih =>
    rw [List.foldl_cons, ih, bytes_append, List.flatMap_cons]
    simp [List.append_assoc]

theorem publishLoop_opts (c : Client) (opts o : PublishOptions) (res : Option MqttError)
    (fuel i : Nat) (h : BusEvent.Publish o res ∈ publishLoop c opts fuel i) : o = opts := by
  induction fuel generalizing i with
  | zero => simp [publishLoop] at h
  | succ f ih =>
    simp only [publishLoop, List.mem_append] at h
    rcases h with h | h
    · unfold retryPrelude at h
      split at h <;> simp at h
    · split at h
      · simp only [List.mem_cons] at h
        rcases h with h | h
        · cases h
        · exact ih _ h
      · split at h
        · simp at h
          exact h.1
        · simp only [List.cons_append, List.nil_append, List.mem_cons] at h
          rcases h with h | h | h | h
          · cases h
          · cases h; rfl
          · cases h
          · exact ih _ h

/-- C6: every `Publish` call made by `publish` carries the topic made of the
configured root topic followed, for each suffix in order, by "/" and the suffix
(the root topic alone when there is no suffix), the message unchanged, and the
retain flag set. -/
theorem publish_topic_message_retain (p : proxy) (c : Client) (msg : List UInt8)
    (suffixes : List String) (o : PublishOptions) (res : Option MqttError)
    (h : BusEvent.Publish o res ∈ p.publish c msg suffixes) :
    o.TopicName = bytes p.mqttTopic ++ suffixes.flatMap (fun s => bytes "/" ++ bytes s)
      ∧ (suffixes = [] → o.TopicName = bytes p.mqttTopic)
      ∧ o.Message = msg ∧ o.Retain = true := by
  have ho := publishLoop_opts c _ o res _ _ h
  subst ho
  refine ⟨topicOf_eq _ _, ?_, rfl, rfl⟩
  intro hs
  subst hs
  rfl

theorem publish_topic_message_retain_witness :
    BusEvent.Publish ⟨[104, 111, 109, 101, 47, 100, 101, 118], [123, 125], true⟩ none
        ∈ proxy.publish ⟨5, "home", GoMap.empty⟩ recoveringClient [123, 125] ["dev"]
      ∧ (([104, 111, 109, 101, 47, 100, 101, 118] : List UInt8)
            = bytes "home" ++ ["dev"].flatMap (fun s => bytes "/" ++ bytes s)
          ∧ (["dev"] = [] → ([104, 111, 109, 101, 47, 100, 101, 118] : List UInt8) = bytes "home")
          ∧ ([123, 125] : List UInt8) = [123, 125] ∧ true = true) :=
  ⟨by decide,
   publish_topic_message_retain ⟨5, "home", GoMap.empty⟩ recoveringClient [123, 125] ["dev"]
     ⟨[104, 111, 109, 101, 47, 100, 101, 118], [123, 125], true⟩ none (by decide)⟩

theorem connectCount_append (a b : List BusEvent) :
    connectCount (a ++ b) = connectCount a + connectCount b := by
  simp [connectCount, List.countP_append]

theorem connectCount_nil : connectCount [] = 0 := rfl

theorem connectCount_connect (r : Option MqttError) (t : List BusEvent) :
    connectCount (BusEvent.Connect r :: t) = connectCount t + 1 := by
  simp [connectCount, List.countP_cons]

theorem connectCount_publish (o : PublishOptions) (r : Option MqttError) (t : List BusEvent) :
    connectCount (BusEvent.Publish o r :: t) = connectCount t := by
  simp [connectCount, List.countP_cons]

theorem connectCount_logErr (e : MqttError) (t : List BusEvent) :
    connectCount (BusEvent.logErr e :: t) = connectCount t := by
  simp [connectCount, List.countP_cons]

theorem connectCount_retryPrelude (i : Nat) : connectCount (retryPrelude i) = 0 := by
  unfold retryPrelude
  split <;> simp [connectCount]

theorem publish_not_mem_retryPrelude (i : Nat) (o : PublishOptions)
    (res : Option MqttError) : BusEvent.Publish o res ∉ retryPrelude i := by
  unfold retryPrelude
  split <;> simp

theorem connectCount_publishLoop_le (c : Client) (opts : PublishOptions) (fuel i : Nat) :
    connectCount (publishLoop c opts fuel i) ≤ fuel := by
  induction fuel generalizing i with
  | zero => simp [publishLoop, connectCount]
  | succ f ih =>
    have h := ih (i + 1)
    simp only [publishLoop, connectCount_append, connectCount_retryPrelude, Nat.zero_add]
    split
    · rw [connectCount_connect]
      omega
    · split
      · simp [connectCount_connect, connectCount_publish, connectCount_nil]
      · simp only [List.cons_append, List.nil_append, connectCount_connect,
          connectCount_publish, connectCount_logErr]
        omega

theorem attemptSucceeds_iff (c : Client) (i : Nat) :
    attemptSucceeds c i = true ↔
      ¬ (c.Connect i ≠ none ∧ c.Connect i ≠ some MqttError.ErrAlreadyConnected)
        ∧ c.Publish i = none := by
  simp only [attemptSucceeds, connectPasses, Bool.and_eq_true, Bool.or_eq_true,
    decide_eq_true_eq]
  constructor
  · rintro ⟨h, hp⟩
    refine ⟨fun hc => ?_, hp⟩
    rcases h with h | h
    · exact hc.1 h
    · exact hc.2 h
  · rintro ⟨h, hp⟩
    refine ⟨?_, hp⟩
    by_cases h1 : c.Connect i = none
    · exact Or.inl h1
    · by_cases h2 : c.Connect i = some MqttError.ErrAlreadyConnected
      · exact Or.inr h2
      · exact absurd ⟨h1, h2⟩ h

theorem publishLoop_first_success (c : Client) (opts : PublishOptions) (fuel i k : Nat)
    (hik : i ≤ k) (hk : k < i + fuel)
    (hfail : ∀ j, i ≤ j → j < k → attemptSucceeds c j = false)
    (hsucc : attemptSucceeds c k = true) :
    ∃ pre, publishLoop c opts fuel i = pre ++ [BusEvent.Publish opts none]
      ∧ connectCount pre = k - i + 1
      ∧ ∀ o, BusEvent.Publish o none ∉ pre := by
  induction fuel generalizing i with
  | zero => omega
  | succ f ih =>
    rcases Nat.eq_or_lt_of_le hik with heq | hlt
    · subst heq
      have hs := (attemptSucceeds_iff c i).1 hsucc
      refine ⟨retryPrelude i ++ [BusEvent.Connect (c.Connect i)], ?_, ?_, ?_⟩
      · simp only [publishLoop, if_neg hs.1, hs.2, List.append_assoc]
        rfl
      · rw [connectCount_append, connectCount_retryPrelude, connectCount_connect,
          connectCount_nil]
        omega
      · intro o ho
        rcases List.mem_append.1 ho with h | h
        · exact publish_not_mem_retryPrelude i o none h
        · simp at h
    · have hf : ¬ (¬ (c.Connect i ≠ none ∧ c.Connect i ≠ some MqttError.ErrAlreadyConnected)
          ∧ c.Publish i = none) := by
        rw [← attemptSucceeds_iff]
        simp [hfail i (Nat.le_refl i) hlt]
      obtain ⟨pre, hpre, hcnt, hno⟩ :=
        ih (i + 1) hlt (by omega) (fun j h1 h2 => hfail j (by omega) h2)
      by_cases hc : c.Connect i ≠ none ∧ c.Connect i ≠ some MqttError.ErrAlreadyConnected
      · refine ⟨retryPrelude i ++ BusEvent.Connect (c.Connect i) :: pre, ?_, ?_, ?_⟩
        · simp only [publishLoop, if_pos hc, hpre, List.append_assoc, List.cons_append]
        · rw [connectCount_append, connectCount_retryPrelude, connectCount_connect, hcnt]
          omega
        · intro o ho
          rcases List.mem_append.1 ho with h | h
          · exact publish_not_mem_retryPrelude i o none h
          · rcases List.mem_cons.1 h with h | h
            · cases h
            · exact hno o h
      · have hp : c.Publish i ≠ none := fun h => hf ⟨hc, h⟩
        obtain ⟨e, he⟩ := Option.ne_none_iff_exists'.1 hp
        refine ⟨retryPrelude i ++ BusEvent.Connect (c.Connect i)
          :: BusEvent.Publish opts (some e) :: BusEvent.logErr e :: pre, ?_, ?_, ?_⟩
        · simp only [publishLoop, if_neg hc, he, hpre, List.append_assoc, List.cons_append,
            List.nil_append]
        · rw [connectCount_append, connectCount_retryPrelude, connectCount_connect,
            connectCount_publish, connectCount_logErr, hcnt]
          omega
        · intro o ho
          rcases List.mem_append.1 ho with h | h
          · exact publish_not_mem_retryPrelude i o none h
          · simp only [List.mem_cons] at h
            rcases h with h | h | h | h
            · cases h
            · cases h
            · cases h
            · exact hno o h

/-- C7: `publish` calls `Connect` at most `mqttRetries` times, and when
iteration `i` (attempt `i + 1`) is the first in which `Connect` returns nil or
`ErrAlreadyConnected` and `Publish` then returns nil, the run ends with that
`Publish`: it is the last event, the run holds exactly `i + 1` `Connect` calls,
all before it, and no earlier `Publish` call succeeded. -/
theorem publish_stops_on_first_success (p : proxy) (c : Client) (msg : List UInt8)
    (suffixes : List String) :
    connectCount (p.publish c msg suffixes) ≤ p.mqttRetries.toNat
      ∧ ∀ i : Nat, (i : Int) < p.mqttRetries →
          (∀ j, j < i → attemptSucceeds c j = false) →
          attemptSucceeds c i = true →
          ∃ pre, p.publish c msg suffixes
              = pre ++ [BusEvent.Publish ⟨topicOf p.mqttTopic suffixes, msg, true⟩ none]
            ∧ connectCount pre = i + 1
            ∧ connectCount (p.publish c msg suffixes) = i + 1
            ∧ ∀ o, BusEvent.Publish o none ∉ pre := by
  refine ⟨connectCount_publishLoop_le _ _ _ _, ?_⟩
  intro i hi hfail hsucc
  obtain ⟨pre, hpre, hcnt, hno⟩ :=
    publishLoop_first_success c ⟨topicOf p.mqttTopic suffixes, msg, true⟩ p.mqttRetries.toNat 0 i
      (Nat.zero_le i) (by omega) (fun j _ h => hfail j h) hsucc
  refine ⟨pre, hpre, by simpa using hcnt, ?_, hno⟩
  unfold proxy.publish
  simp only [hpre, connectCount_append, hcnt, connectCount_publish, connectCount_nil]
  omega

theorem publish_stops_on_first_success_witness :
    connectCount (proxy.publish ⟨5, "home", GoMap.empty⟩ recoveringClient [123, 125] ["dev"])
        ≤ (5 : Int).toNat
      ∧ ((2 : Nat) : Int) < 5 ∧ (∀ j, j < 2 → attemptSucceeds recoveringClient j = false)
      ∧ attemptSucceeds recoveringClient 2 = true
      ∧ ∃ pre, proxy.publish ⟨5, "home", GoMap.empty⟩ recoveringClient [123, 125] ["dev"]
            = pre ++ [BusEvent.Publish ⟨topicOf "home" ["dev"], [123, 125], true⟩ none]
          ∧ connectCount pre = 2 + 1
          ∧ connectCount
              (proxy.publish ⟨5, "home", GoMap.empty⟩ recoveringClient [123, 125] ["dev"]) = 2 + 1
          ∧ ∀ o, BusEvent.Publish o none ∉ pre :=
  ⟨(publish_stops_on_first_success ⟨5, "home", GoMap.empty⟩ recoveringClient [123, 125]
      ["dev"]).1,
   by decide, by decide, by decide,
   (publish_stops_on_first_success ⟨5, "home", GoMap.empty⟩ recoveringClient [123, 125]
      ["dev"]).2 2 (by decide) (by decide) (by decide)⟩

theorem publishLoop_connect_fails (c : Client) (opts : PublishOptions)
    (hfail : ∀ i, connectPasses c i = false) (fuel i : Nat) :
    publishLoop c opts fuel i
      = (List.range fuel).flatMap
          (fun j => retryPrelude (i + j) ++ [BusEvent.Connect (c.Connect (i + j))]) := by
  induction fuel generalizing i with
  | zero => simp [publishLoop]
  | succ f ih =>
    have hc : c.Connect i ≠ none ∧ c.Connect i ≠ some MqttError.ErrAlreadyConnected := by
      have := hfail i
      simp only [connectPasses, Bool.or_eq_false_iff, decide_eq_false_iff_not] at this
      exact this
    simp only [publishLoop, if_pos hc, ih (i + 1), List.range_succ_eq_map, List.flatMap_cons,
      Nat.add_zero, List.flatMap_map, List.append_assoc, List.singleton_append]
    congr 2
    apply List.flatMap_congr
    intro j _
    simp only [Function.comp, Nat.succ_eq_add_one]
    rw [show i + 1 + j = i + (j + 1) by omega]

/-- C8: with `mqttRetries = n ≥ 1` and a client whose `Connect` fails on every
call with an error other than `ErrAlreadyConnected`, `publish` returns after
one `Connect` followed by `n - 1` rounds of retry notice, `Disconnect`,
one-second `Sleep` and `Connect`: `n` `Connect` calls, no `Publish` call,
`n - 1` sleeps. -/
theorem publish_connect_always_fails (p : proxy) (c : Client) (msg : List UInt8)
    (suffixes : List String) (hn : 1 ≤ p.mqttRetries)
    (hfail : ∀ i, connectPasses c i = false) :
    p.publish c msg suffixes
        = BusEvent.Connect (c.Connect 0)
            :: (List.range (p.mqttRetries.toNat - 1)).flatMap (fun j =>
                [BusEvent.log ("publish retrying, attempt " ++ toString (j + 2) ++ "\n"),
                 BusEvent.Disconnect,
                 BusEvent.Sleep 1000000000,
                 BusEvent.Connect (c.Connect (j + 1))])
      ∧ (connectCount (p.publish c msg suffixes) : Int) = p.mqttRetries
      ∧ publishCount (p.publish c msg suffixes) = 0
      ∧ (sleepCount (p.publish c msg suffixes) : Int) = p.mqttRetries - 1 := by
  obtain ⟨m, hm⟩ : ∃ m : Nat, p.mqttRetries.toNat = m + 1 := ⟨p.mqttRetries.toNat - 1, by omega⟩
  have hrun : p.publish c msg suffixes
      = BusEvent.Connect (c.Connect 0)
          :: (List.range m).flatMap (fun j =>
              [BusEvent.log ("publish retrying, attempt " ++ toString (j + 2) ++ "\n"),
               BusEvent.Disconnect,
               BusEvent.Sleep 1000000000,
               BusEvent.Connect (c.Connect (j + 1))]) := by
    unfold proxy.publish
    rw [publishLoop_connect_fails c _ hfail, hm, List.range_succ_eq_map, List.flatMap_cons,
      List.flatMap_map]
    simp only [retryPrelude, Nat.add_zero, Nat.lt_irrefl, if_false, List.nil_append,
      List.singleton_append, Nat.zero_add, gt_iff_lt]
    congr 1
    apply List.flatMap_congr
    intro j _
    simp [Function.comp, Second]
  have hcount : ∀ k : Nat,
      connectCount ((List.range k).flatMap (fun j =>
              [BusEvent.log ("publish retrying, attempt " ++ toString (j + 2) ++ "\n"),
               BusEvent.Disconnect,
               BusEvent.Sleep 1000000000,
               BusEvent.Connect (c.Connect (j + 1))])) = k
        ∧ publishCount ((List.range k).flatMap (fun j =>
              [BusEvent.log ("publish retrying, attempt " ++ toString (j + 2) ++ "\n"),
               BusEvent.Disconnect,
               BusEvent.Sleep 1000000000,
               BusEvent.Connect (c.Connect (j + 1))])) = 0
        ∧ sleepCount ((List.range k).flatMap (fun j =>
              [BusEvent.log ("publish retrying, attempt " ++ toString (j + 2) ++ "\n"),
               BusEvent.Disconnect,
               BusEvent.Sleep 1000000000,
               BusEvent.Connect (c.Connect (j + 1))])) = k := by
    intro k
    induction k with
    | zero => simp [connectCount, publishCount, sleepCount]
    | succ k ih =>
      obtain ⟨h1, h2, h3⟩ := ih
      simp only [connectCount, publishCount, sleepCount] at h1 h2 h3 ⊢
      simp only [List.range_succ, List.flatMap_append, List.countP_append, h1, h2, h3]
      simp [List.countP_cons]
  obtain ⟨h1, h2, h3⟩ := hcount m
  have hm' : p.mqttRetries.toNat - 1 = m := by omega
  rw [hm']
  refine ⟨hrun, ?_, ?_, ?_⟩
  · rw [hrun, connectCount_connect, h1]
    omega
  · rw [hrun]
    simp only [publishCount, List.countP_cons] at h2 ⊢
    simp [h2]
  · rw [hrun]
    simp only [sleepCount, List.countP_cons] at h3 ⊢
    simp only [h3]
    simp
    omega

theorem publish_connect_always_fails_witness :
    (1 : Int) ≤ 3 ∧ (∀ i, connectPasses refusingClient i = false)
      ∧ proxy.publish ⟨3, "home", GoMap.empty⟩ refusingClient [123, 125] ["dev"]
          = [BusEvent.Connect (some (MqttError.other "connection refused")),
             BusEvent.log "publish retrying, attempt 2\n", BusEvent.Disconnect,
             BusEvent.Sleep 1000000000,
             BusEvent.Connect (some (MqttError.other "connection refused")),
             BusEvent.log "publish retrying, attempt 3\n", BusEvent.Disconnect,
             BusEvent.Sleep 1000000000,
             BusEvent.Connect (some (MqttError.other "connection refused"))]
      ∧ (connectCount (proxy.publish ⟨3, "home", GoMap.empty⟩ refusingClient [123, 125] ["dev"])
            : Int) = 3 :=
  ⟨by decide, fun _ => rfl, by decide,
   (publish_connect_always_fails ⟨3, "home", GoMap.empty⟩ refusingClient [123, 125] ["dev"]
      (by decide) (fun _ => rfl)).2.1⟩

/-- C9: the code breaks the claim when `Connect` fails. With `mqttRetries = 1`
and a client that refuses `Connect`, no attempt ends in a successful `Publish`,
the run of `publish` is the single `Connect` call and nothing at all is written
to the log. With `mqttRetries = 5` the log holds the four retry notices only:
no error is logged and nothing follows the last refused `Connect`. On the
sibling path, a failed `Publish`, the error is logged. -/
theorem publish_silent_when_connect_refused :
    (1 : Int) ≤ (proxy.mk 1 "home" GoMap.empty).mqttRetries
      ∧ attemptSucceeds refusingClient 0 = false
      ∧ proxy.publish ⟨1, "home", GoMap.empty⟩ refusingClient [123, 125] ["dev"]
          = [BusEvent.Connect (some (MqttError.other "connection refused"))]
      ∧ logEntries (proxy.publish ⟨1, "home", GoMap.empty⟩ refusingClient [123, 125] ["dev"])
          = []
      ∧ logEntries (proxy.publish ⟨5, "home", GoMap.empty⟩ refusingClient [123, 125] ["dev"])
          = [BusEvent.log "publish retrying, attempt 2\n",
             BusEvent.log "publish retrying, attempt 3\n",
             BusEvent.log "publish retrying, attempt 4\n",
             BusEvent.log "publish retrying, attempt 5\n"]
      ∧ loggedErrors (proxy.publish ⟨5, "home", GoMap.empty⟩ refusingClient [123, 125] ["dev"])
          = []
      ∧ (proxy.publish ⟨5, "home", GoMap.empty⟩ refusingClient [123, 125] ["dev"]).getLast?
          = some (BusEvent.Connect (some (MqttError.other "connection refused")))
      ∧ proxy.publish ⟨1, "home", GoMap.empty⟩ brokenPipeClient [123, 125] ["dev"]
          = [BusEvent.Connect none,
             BusEvent.Publish ⟨topicOf "home" ["dev"], [123, 125], true⟩
               (some (MqttError.other "broken pipe")),
             BusEvent.logErr (MqttError.other "broken pipe")] := by
  decide

/-! ### Maps -/

theorem findEntry_putEntry_self {β : Type} (k : String) (v : β) (l : List (String × β)) :
    GoMap.findEntry k (GoMap.putEntry k v l) = some v := by
  induction l with
  | nil => simp [GoMap.putEntry, GoMap.findEntry]
  | cons e t ih =>
    obtain ⟨k', v'⟩ := e
    by_cases h : k' = k
    · simp [GoMap.putEntry, GoMap.findEntry, h]
    · simp [GoMap.putEntry, GoMap.findEntry, h, ih]

theorem findEntry_putEntry_ne {β : Type} (k k' : String) (v : β) (l : List (String × β))
    (hne : k' ≠ k) : GoMap.findEntry k' (GoMap.putEntry k v l) = GoMap.findEntry k' l := by
  induction l with
  | nil => simp [GoMap.putEntry, GoMap.findEntry, Ne.symm hne]
  | cons e t ih =>
    obtain ⟨k₁, v₁⟩ := e
    by_cases h : k₁ = k
    · subst h
      simp [GoMap.putEntry, GoMap.findEntry, Ne.symm hne]
    · by_cases h' : k₁ = k'
      · subst h'
        simp [GoMap.putEntry, GoMap.findEntry, h]
      · simp [GoMap.putEntry, GoMap.findEntry, h, h', ih]

theorem putEntry_of_findEntry {β : Type} (k : String) (v : β) (l : List (String × β))
    (h : GoMap.findEntry k l = some v) : GoMap.putEntry k v l = l := by
  induction l with
  | nil => simp [GoMap.findEntry] at h
  | cons e t ih =>
    obtain ⟨k₁, v₁⟩ := e
    by_cases hk : k₁ = k
    · subst hk
      simp only [GoMap.findEntry, if_true, Option.some.injEq] at h
      simp [GoMap.putEntry, h]
    · simp only [GoMap.findEntry, if_neg hk] at h
      simp [GoMap.putEntry, hk, ih h]

theorem mem_keys_putEntry {β : Type} (k x : String) (v : β) (l : List (String × β)) :
    x ∈ (GoMap.putEntry k v l).map Prod.fst ↔ x = k ∨ x ∈ l.map Prod.fst := by
  induction l with
  | nil => simp [GoMap.putEntry]
  | cons e t ih =>
    obtain ⟨k₁, v₁⟩ := e
    by_cases hk : k₁ = k
    · subst hk
      simp [GoMap.putEntry]
    · simp only [GoMap.putEntry, if_neg hk, List.map_cons, List.mem_cons, ih]
      constructor
      · rintro (h | h | h)
        · exact Or.inr (Or.inl h)
        · exact Or.inl h
        · exact Or.inr (Or.inr h)
      · rintro (h | h | h)
        · exact Or.inr (Or.inl h)
        · exact Or.inl h
        · exact Or.inr (Or.inr h)

theorem get?_set_self {β : Type} (m : GoMap β) (k : String) (v : β) :
    (m.set k v).get? k = some v :=
  findEntry_putEntry_self k v m.entries

theorem get?_set_ne {β : Type} (m : GoMap β) (k k' : String) (v : β) (hne : k' ≠ k) :
    (m.set k v).get? k' = m.get? k' :=
  findEntry_putEntry_ne k k' v m.entries hne

theorem set_of_get? {β : Type} (m : GoMap β) (k : String) (v : β) (h : m.get? k = some v) :
    m.set k v = m := by
  cases m with
  | mk l => simp only [GoMap.set, putEntry_of_findEntry k v l h]

theorem mem_keys_set {β : Type} (m : GoMap β) (k x : String) (v : β) :
    x ∈ (m.set k v).keys ↔ x = k ∨ x ∈ m.keys :=
  mem_keys_putEntry k x v m.entries

theorem gatewayOf_set (p : proxy) (id : String) (gw : LCGW) :
    gatewayOf { p with devices := p.devices.set id gw } id = gw := by
  simp [gatewayOf, get?_set_self]

theorem wrapInt_of_range (x : Int) (hlo : minInt ≤ x) (hhi : x ≤ maxInt) : wrapInt x = x := by
  unfold wrapInt
  unfold minInt at hlo
  unfold maxInt at hhi
  omega

theorem count_incr_self (m : GoMap Int) (k : String) :
    count (incr m k) k = wrapInt (count m k + 1) := by
  simp [count, incr, get?_set_self]

/-! ### Response tracking -/

theorem response_track_gateway (now : Int) (r : Response) (p : proxy)
    (hname : r.Command.Name = "") :
    gatewayOf (Response.track now r p).1 r.Command.DeviceID
      = { gatewayOf p r.Command.DeviceID with
          Results := incr (gatewayOf p r.Command.DeviceID).Results r.ResultCode
          LastResult := now } := by
  unfold Response.track
  simp only [hname, ne_eq, not_true_eq_false, if_false]
  rw [gatewayOf_set]
  rfl

/-- C5 as stated fails at the edge of Go's `int`: in a store whose gateway has
counted `maxInt` "SUCCESS" results, one more "SUCCESS" response makes the
count wrap around to `minInt` instead of growing by 1. -/
theorem response_track_count_wraps :
    successResponse.ResultCode = "SUCCESS" ∧ successResponse.Command.Name = ""
      ∧ count (gatewayOf saturatedStore "gw1").Results "SUCCESS" = 9223372036854775807
      ∧ count (gatewayOf (Response.track 0 successResponse saturatedStore).1 "gw1").Results
          "SUCCESS" = -9223372036854775808
      ∧ count (gatewayOf (Response.track 0 successResponse saturatedStore).1 "gw1").Results
          "SUCCESS" ≠ count (gatewayOf saturatedStore "gw1").Results "SUCCESS" + 1 := by
  decide

/-- C5, amended: for every store, whether the gateway is present or not, and
every response with result code "SUCCESS" and an empty command name, when the
gateway's "SUCCESS" count is an `int` other than the largest one,
`Response.track` increases that count by exactly 1 and leaves the gateway's
`Requests` histogram unchanged. -/
theorem response_track_success (now : Int) (r : Response) (p : proxy)
    (hcode : r.ResultCode = "SUCCESS") (hname : r.Command.Name = "")
    (hlo : minInt ≤ count (gatewayOf p r.Command.DeviceID).Results "SUCCESS")
    (hhi : count (gatewayOf p r.Command.DeviceID).Results "SUCCESS" < maxInt) :
    count (gatewayOf (Response.track now r p).1 r.Command.DeviceID).Results "SUCCESS"
        = count (gatewayOf p r.Command.DeviceID).Results "SUCCESS" + 1
      ∧ (gatewayOf (Response.track now r p).1 r.Command.DeviceID).Requests
        = (gatewayOf p r.Command.DeviceID).Requests := by
  rw [response_track_gateway now r p hname, hcode]
  refine ⟨?_, rfl⟩
  show count (incr _ "SUCCESS") "SUCCESS" = _
  rw [count_incr_self]
  apply wrapInt_of_range
  · unfold minInt at hlo ⊢
    omega
  · unfold maxInt at hhi ⊢
    omega

theorem response_track_success_witness :
    successResponse.ResultCode = "SUCCESS" ∧ successResponse.Command.Name = ""
      ∧ minInt ≤ count (gatewayOf ⟨5, "home", GoMap.empty⟩ successResponse.Command.DeviceID).Results
          "SUCCESS"
      ∧ count (gatewayOf ⟨5, "home", GoMap.empty⟩ successResponse.Command.DeviceID).Results
          "SUCCESS" < maxInt
      ∧ count (gatewayOf (Response.track 0 successResponse ⟨5, "home", GoMap.empty⟩).1
          successResponse.Command.DeviceID).Results "SUCCESS" = 0 + 1 :=
  ⟨rfl, rfl, by decide, by decide,
   (response_track_success 0 successResponse ⟨5, "home", GoMap.empty⟩ rfl rfl (by decide)
      (by decide)).1⟩

/-! ### Request tracking -/

theorem publishCalls_append (a b : List Effect) :
    publishCalls (a ++ b) = publishCalls a ++ publishCalls b := by
  induction a with
  | nil => rfl
  | cons e t ih => cases e <;> simp [publishCalls, ih]

theorem logLines_append (a b : List Effect) :
    logLines (a ++ b) = logLines a ++ logLines b := by
  induction a with
  | nil => rfl
  | cons e t ih => cases e <;> simp [logLines, ih]

theorem forRange_cons {σ α : Type} (body : σ → α → σ × List Effect) (s : σ) (x : α)
    (xs : List α) :
    forRange body s (x :: xs)
      = ((forRange body (body s x).1 xs).1, (body s x).2 ++ (forRange body (body s x).1 xs).2) :=
  rfl

theorem forRange_fst {σ α : Type} (body : σ → α → σ × List Effect) (s : σ) (xs : List α) :
    (forRange body s xs).1 = xs.foldl (fun s x => (body s x).1) s := by
  induction xs generalizing s with
  | nil => rfl
  | cons x xs ih => rw [forRange_cons, List.foldl_cons, ih]

theorem parameterStep_publishCalls (dev : String) (params : GoMap String) (k : Parameter) :
    publishCalls (parameterStep dev params k).2 = [] := by
  unfold parameterStep
  split
  · split <;> rfl
  · rfl

theorem parameterLoop_publishCalls (dev : String) (params : GoMap String)
    (ks : List Parameter) :
    publishCalls (forRange (parameterStep dev) params ks).2 = [] := by
  induction ks generalizing params with
  | nil => rfl
  | cons k ks ih =>
    rw [forRange_cons, publishCalls_append, parameterStep_publishCalls, ih]
    rfl

theorem parameterStep_fst (dev : String) (params : GoMap String) (k : Parameter) :
    (parameterStep dev params k).1 = params.set k.Name k.Value := by
  unfold parameterStep
  split
  · next v hv =>
    split
    · next hvk =>
      rw [hvk] at hv
      exact (set_of_get? params k.Name k.Value hv).symm
    · rfl
  · rfl

theorem parameterLoop_fst (dev : String) (params : GoMap String) (ks : List Parameter) :
    (forRange (parameterStep dev) params ks).1
      = ks.foldl (fun m k => m.set k.Name k.Value) params := by
  rw [forRange_fst]
  congr 1
  funext m k
  exact parameterStep_fst dev m k

theorem parameterLoop_keys (dev : String) (params : GoMap String) (ks : List Parameter)
    (x : String) (hx : x ∈ params.keys) :
    x ∈ (forRange (parameterStep dev) params ks).1.keys := by
  rw [parameterLoop_fst]
  induction ks generalizing params with
  | nil => exact hx
  | cons k ks ih =>
    rw [List.foldl_cons]
    exact ih _ ((mem_keys_set params k.Name x k.Value).2 (Or.inr hx))

theorem measurementStep_spec (marshal : GoMap String → List UInt8) (g : String) (gw : LCGW)
    (m : Measurement) :
    targetParams g (measurementStep marshal g gw m).1 m.DeviceID
        = (forRange (parameterStep m.DeviceID) (targetParams g gw m.DeviceID) m.Parameters).1
      ∧ (measurementStep marshal g gw m).2
        = (forRange (parameterStep m.DeviceID) (targetParams g gw m.DeviceID) m.Parameters).2
          ++ [Effect.publish
                (marshal (targetParams g (measurementStep marshal g gw m).1 m.DeviceID))
                [m.DeviceID]] := by
  by_cases hd : m.DeviceID = g
  · simp [measurementStep, targetParams, hd]
  · cases hget : gw.Devices.get? m.DeviceID with
    | none => simp [measurementStep, targetParams, hd, hget, get?_set_self]
    | some d => simp [measurementStep, targetParams, hd, hget, get?_set_self]

theorem measurementStep_publishCalls (marshal : GoMap String → List UInt8) (g : String)
    (gw : LCGW) (m : Measurement) :
    publishCalls (measurementStep marshal g gw m).2
      = [(marshal (targetParams g (gatewayStep marshal g gw m) m.DeviceID), [m.DeviceID])] := by
  rw [(measurementStep_spec marshal g gw m).2, publishCalls_append, parameterLoop_publishCalls]
  rfl

theorem measurementLoop_publishCalls (marshal : GoMap String → List UInt8) (g : String)
    (gw : LCGW) (ms : List Measurement) :
    (publishCalls (forRange (measurementStep marshal g) gw ms).2).length = ms.length
      ∧ ∀ (i : Nat) (h : i < ms.length),
          (publishCalls (forRange (measurementStep marshal g) gw ms).2)[i]?
            = some (marshal (targetParams g
                      ((ms.take (i + 1)).foldl (gatewayStep marshal g) gw) ms[i].DeviceID),
                    [ms[i].DeviceID]) := by
  induction ms generalizing gw with
  | nil => exact ⟨rfl, fun i h => absurd h (Nat.not_lt_zero i)⟩
  | cons m ms ih =>
    obtain ⟨ihl, ihi⟩ := ih (gatewayStep marshal g gw m)
    rw [forRange_cons, publishCalls_append, measurementStep_publishCalls]
    refine ⟨?_, ?_⟩
    · simp only [List.singleton_append, List.length_cons]
      exact congrArg (· + 1) ihl
    · intro i h
      cases i with
      | zero => simp
      | succ j =>
        have hj : j < ms.length := Nat.lt_of_succ_lt_succ h
        simpa using ihi j hj

theorem request_track_gateway (marshal : GoMap String → List UInt8) (r : Request) (p : proxy)
    (hcmd : r.Command = "postMeasurements") :
    gatewayOf (Request.track marshal r p).1 r.GatewayID
        = r.Measurements.foldl (gatewayStep marshal r.GatewayID)
            { gatewayOf p r.GatewayID with
              Requests := incr (gatewayOf p r.GatewayID).Requests r.Command }
      ∧ (Request.track marshal r p).2
        = [Effect.Lock]
          ++ (forRange (measurementStep marshal r.GatewayID)
                { gatewayOf p r.GatewayID with
                  Requests := incr (gatewayOf p r.GatewayID).Requests r.Command }
                r.Measurements).2
          ++ [Effect.Unlock] := by
  unfold Request.track
  simp only [hcmd, if_true]
  refine ⟨?_, rfl⟩
  rw [gatewayOf_set, forRange_fst]
  rfl

theorem targetParams_requests (g d : String) (gw : LCGW) (m : GoMap Int) :
    targetParams g { gw with Requests := m } d = targetParams g gw d := rfl

theorem targetParams_gatewayStep (marshal : GoMap String → List UInt8) (g : String)
    (gw : LCGW) (m : Measurement) (d : String) :
    targetParams g (gatewayStep marshal g gw m) d
      = if m.DeviceID = d then
          m.Parameters.foldl (fun q k => q.set k.Name k.Value) (targetParams g gw d)
        else targetParams g gw d := by
  by_cases hmd : m.DeviceID = d
  · subst hmd
    unfold gatewayStep
    rw [(measurementStep_spec marshal g gw m).1, parameterLoop_fst]
    simp
  · rw [if_neg hmd]
    by_cases hd : d = g
    · subst hd
      cases hget : gw.Devices.get? m.DeviceID with
      | none => simp [targetParams, gatewayStep, measurementStep, hmd, hget]
      | some dev => simp [targetParams, gatewayStep, measurementStep, hmd, hget]
    · by_cases hmg : m.DeviceID = g
      · simp [targetParams, hd, gatewayStep, measurementStep, hmg]
      · cases hget : gw.Devices.get? m.DeviceID with
        | none =>
          simp [targetParams, hd, gatewayStep, measurementStep, hmg, hget,
            get?_set_ne _ _ _ _ (Ne.symm hmd)]
        | some dev =>
          simp [targetParams, hd, gatewayStep, measurementStep, hmg, hget,
            get?_set_ne _ _ _ _ (Ne.symm hmd)]

theorem targetParams_measurementLoop (marshal : GoMap String → List UInt8) (g : String)
    (gw : LCGW) (ms : List Measurement) (d : String) :
    targetParams g (ms.foldl (gatewayStep marshal g) gw) d
      = ((ms.filter (fun m => decide (m.DeviceID = d))).flatMap Measurement.Parameters).foldl
          (fun q k => q.set k.Name k.Value) (targetParams g gw d) := by
  induction ms generalizing gw with
  | nil => rfl
  | cons m ms ih =>
    rw [List.foldl_cons, ih, targetParams_gatewayStep]
    by_cases hmd : m.DeviceID = d
    · simp [List.filter_cons, hmd, List.foldl_append]
    · simp [List.filter_cons, hmd]

/-- C2: for every store and every postMeasurements request with measurements
`m_0 .. m_(k-1)`, `Request.track` calls `publish` exactly `k` times; call `i`
has the single suffix `m_i.DeviceID` and, as payload, the encoding of the whole
parameter map of `m_i`'s target (the gateway's own map when `m_i.DeviceID` is the
gateway identifier, else that device's map) as the store holds it once
`m_0 .. m_i` are processed. That map is the target's map of the store before
the call with every (name, value) pair of the measurements among `m_0 .. m_i`
that address the same target assigned in order; it is the map held before `m_i`
with the pairs of `m_i` assigned, and every key held before `m_i` is still in
it. -/
theorem request_track_publishes (marshal : GoMap String → List UInt8) (r : Request)
    (p : proxy) (hcmd : r.Command = "postMeasurements") :
    (publishCalls (Request.track marshal r p).2).length = r.Measurements.length
      ∧ ∀ (i : Nat) (h : i < r.Measurements.length),
          (publishCalls (Request.track marshal r p).2)[i]?
              = some (marshal (targetParams r.GatewayID
                        (gatewayOf (Request.track marshal (r.upTo (i + 1)) p).1 r.GatewayID)
                        r.Measurements[i].DeviceID),
                      [r.Measurements[i].DeviceID])
            ∧ (publishCalls (Request.track marshal r p).2)[i]?
              = some (marshal
                        ((((r.Measurements.take (i + 1)).filter
                              (fun m => decide (m.DeviceID = r.Measurements[i].DeviceID))).flatMap
                            Measurement.Parameters).foldl
                          (fun q k => q.set k.Name k.Value)
                          (targetParams r.GatewayID (gatewayOf p r.GatewayID)
                            r.Measurements[i].DeviceID)),
                      [r.Measurements[i].DeviceID])
            ∧ targetParams r.GatewayID
                  (gatewayOf (Request.track marshal (r.upTo (i + 1)) p).1 r.GatewayID)
                  r.Measurements[i].DeviceID
              = r.Measurements[i].Parameters.foldl (fun q k => q.set k.Name k.Value)
                  (targetParams r.GatewayID
                    (gatewayOf (Request.track marshal (r.upTo i) p).1 r.GatewayID)
                    r.Measurements[i].DeviceID)
            ∧ ∀ x, x ∈ (targetParams r.GatewayID
                          (gatewayOf (Request.track marshal (r.upTo i) p).1 r.GatewayID)
                          r.Measurements[i].DeviceID).keys →
                x ∈ (targetParams r.GatewayID
                      (gatewayOf (Request.track marshal (r.upTo (i + 1)) p).1 r.GatewayID)
                      r.Measurements[i].DeviceID).keys := by
  have hcalls : publishCalls (Request.track marshal r p).2
      = publishCalls (forRange (measurementStep marshal r.GatewayID)
          { gatewayOf p r.GatewayID with
            Requests := incr (gatewayOf p r.GatewayID).Requests r.Command }
          r.Measurements).2 := by
    rw [(request_track_gateway marshal r p hcmd).2, publishCalls_append, publishCalls_append]
    simp [publishCalls]
  have hup : ∀ j, gatewayOf (Request.track marshal (r.upTo j) p).1 r.GatewayID
      = (r.Measurements.take j).foldl (gatewayStep marshal r.GatewayID)
          { gatewayOf p r.GatewayID with
            Requests := incr (gatewayOf p r.GatewayID).Requests r.Command } :=
    fun j => (request_track_gateway marshal (r.upTo j) p hcmd).1
  obtain ⟨hlen, hidx⟩ := measurementLoop_publishCalls marshal r.GatewayID
    { gatewayOf p r.GatewayID with
      Requests := incr (gatewayOf p r.GatewayID).Requests r.Command } r.Measurements
  have hstep : ∀ (i : Nat) (h : i < r.Measurements.length),
      targetParams r.GatewayID
          (gatewayOf (Request.track marshal (r.upTo (i + 1)) p).1 r.GatewayID)
          r.Measurements[i].DeviceID
        = r.Measurements[i].Parameters.foldl (fun q k => q.set k.Name k.Value)
            (targetParams r.GatewayID
              (gatewayOf (Request.track marshal (r.upTo i) p).1 r.GatewayID)
              r.Measurements[i].DeviceID) := by
    intro i h
    rw [hup (i + 1), hup i, List.take_succ, List.getElem?_eq_getElem h]
    simp only [Option.toList_some, List.foldl_append, List.foldl_cons, List.foldl_nil]
    rw [targetParams_gatewayStep, if_pos rfl]
  rw [hcalls]
  refine ⟨hlen, fun i h => ⟨?_, ?_, hstep i h, ?_⟩⟩
  · rw [hup (i + 1)]
    exact hidx i h
  · rw [hidx i h, targetParams_measurementLoop, targetParams_requests]
  · intro x hx
    rw [hstep i h]
    have hkeys : ∀ (ks : List Parameter) (q : GoMap String), x ∈ q.keys →
        x ∈ (ks.foldl (fun q k => q.set k.Name k.Value) q).keys := by
      intro ks
      induction ks with
      | nil => exact fun q hq => hq
      | cons k ks ih =>
        intro q hq
        rw [List.foldl_cons]
        exact ih _ ((mem_keys_set q k.Name x k.Value).2 (Or.inr hq))
    exact hkeys _ _ hx

theorem request_track_publishes_witness :
    sampleRequest.Command = "postMeasurements" ∧ 0 < sampleRequest.Measurements.length
      ∧ (publishCalls (Request.track sampleMarshal sampleRequest ⟨5, "home", GoMap.empty⟩).2)[0]?
          = some (sampleMarshal
                    ((((sampleRequest.Measurements.take (0 + 1)).filter
                          (fun m => decide (m.DeviceID
                            = (sampleRequest.Measurements.get ⟨0, by decide⟩).DeviceID))).flatMap
                        Measurement.Parameters).foldl
                      (fun q k => q.set k.Name k.Value)
                      (targetParams sampleRequest.GatewayID
                        (gatewayOf ⟨5, "home", GoMap.empty⟩ sampleRequest.GatewayID)
                        (sampleRequest.Measurements.get ⟨0, by decide⟩).DeviceID)),
                  [(sampleRequest.Measurements.get ⟨0, by decide⟩).DeviceID])
      ∧ publishCalls (Request.track sampleMarshal sampleRequest ⟨5, "home", GoMap.empty⟩).2
          = [(bytes "\x7b\"doorStatus\":\"open\",\"lqi\":\"90\"\x7d", ["door"]),
             (bytes "\x7b\"firmware\":\"1.2\"\x7d", ["gw1"])] :=
  ⟨rfl, by decide,
   ((request_track_publishes sampleMarshal sampleRequest ⟨5, "home", GoMap.empty⟩ rfl).2 0
      (by decide)).2.1,
   by decide⟩

theorem post_track (marshal : GoMap String → List UInt8) (p : proxy) (g d n v : String)
    (t : Int) :
    targetParams g (gatewayOf (Request.track marshal (post g d n v t) p).1 g) d
        = (targetParams g (gatewayOf p g) d).set n v
      ∧ publishCalls (Request.track marshal (post g d n v t) p).2
        = [(marshal (targetParams g
              (gatewayOf (Request.track marshal (post g d n v t) p).1 g) d), [d])]
      ∧ logLines (Request.track marshal (post g d n v t) p).2
        = match (targetParams g (gatewayOf p g) d).get? n with
          | some w => if w = v then [] else [changeLine n w v d]
          | none => [] := by
  obtain ⟨hgw, heff⟩ := request_track_gateway marshal (post g d n v t) p rfl
  have hgw' : gatewayOf (Request.track marshal (post g d n v t) p).1 g
      = gatewayStep marshal g
          { gatewayOf p g with Requests := incr (gatewayOf p g).Requests "postMeasurements" }
          ⟨d, [⟨n, v⟩], t⟩ := hgw
  have hspec := measurementStep_spec marshal g
    { gatewayOf p g with Requests := incr (gatewayOf p g).Requests "postMeasurements" }
    ⟨d, [⟨n, v⟩], t⟩
  simp only [targetParams_requests] at hspec
  have heff' : (Request.track marshal (post g d n v t) p).2
      = [Effect.Lock]
        ++ ((measurementStep marshal g
              { gatewayOf p g with Requests := incr (gatewayOf p g).Requests "postMeasurements" }
              ⟨d, [⟨n, v⟩], t⟩).2 ++ [])
        ++ [Effect.Unlock] := heff
  have hT : targetParams g (gatewayOf (Request.track marshal (post g d n v t) p).1 g) d
      = (targetParams g (gatewayOf p g) d).set n v := by
    rw [hgw']
    unfold gatewayStep
    rw [hspec.1, parameterLoop_fst]
    rfl
  refine ⟨hT, ?_, ?_⟩
  · rw [heff', hgw']
    simp only [List.append_nil, publishCalls_append, measurementStep_publishCalls]
    simp [publishCalls]
  · rw [heff', hspec.2]
    simp only [List.append_nil, logLines_append, forRange_cons, forRange]
    unfold parameterStep
    cases hget : (targetParams g (gatewayOf p g) d).get? n with
    | none => simp [logLines]
    | some w =>
      by_cases hw : w = v
      · simp [logLines, hw]
      · simp [logLines, hw, changeLine]

/-- C3 as stated fails: three posts for one (gateway, device, parameter)
triple with the values "open", "closed", "closed", handled in order from the
empty store, leave "closed" stored and log one change, but make
`Request.track` call `publish` three times, not two; the payloads hold "open",
"closed", "closed". -/
theorem three_posts_publish_thrice :
    (targetParams "gw1" (gatewayOf doorRun.1 "gw1") "door").get? "doorStatus" = some "closed"
      ∧ logLines doorRun.2 = ["changing doorStatus from open to closed for device door"]
      ∧ publishCalls doorRun.2
          = [(bytes "\x7b\"doorStatus\":\"open\"\x7d", ["door"]),
             (bytes "\x7b\"doorStatus\":\"closed\"\x7d", ["door"]),
             (bytes "\x7b\"doorStatus\":\"closed\"\x7d", ["door"])]
      ∧ (publishCalls doorRun.2).length ≠ 2 := by
  decide

/-- C3, amended: three posts for one (gateway, device, parameter) triple with
values `v1 ≠ v2 = v3`, handled in order by `Request.track` from a store that
holds no value other than `v1` for the parameter, leave `v3` stored, log
exactly one change (`v1` to `v2`) and call `publish` exactly three times, once
per post, with the encoding of the target's map holding `v1`, then `v2`, then
`v3`. -/
theorem three_posts (marshal : GoMap String → List UInt8) (p p1 p2 p3 : proxy)
    (e1 e2 e3 : List Effect) (g d n v1 v2 v3 : String) (t1 t2 t3 : Int)
    (h12 : v1 ≠ v2) (h23 : v2 = v3)
    (h0 : ∀ w, (targetParams g (gatewayOf p g) d).get? n = some w → w = v1)
    (hs1 : Request.track marshal (post g d n v1 t1) p = (p1, e1))
    (hs2 : Request.track marshal (post g d n v2 t2) p1 = (p2, e2))
    (hs3 : Request.track marshal (post g d n v3 t3) p2 = (p3, e3)) :
    (targetParams g (gatewayOf p3 g) d).get? n = some v3
      ∧ logLines (e1 ++ e2 ++ e3) = [changeLine n v1 v2 d]
      ∧ publishCalls (e1 ++ e2 ++ e3)
          = [(marshal (targetParams g (gatewayOf p1 g) d), [d]),
             (marshal (targetParams g (gatewayOf p2 g) d), [d]),
             (marshal (targetParams g (gatewayOf p3 g) d), [d])]
      ∧ (targetParams g (gatewayOf p1 g) d).get? n = some v1
      ∧ (targetParams g (gatewayOf p2 g) d).get? n = some v2 := by
  obtain ⟨a1, b1, c1⟩ := post_track marshal p g d n v1 t1
  obtain ⟨a2, b2, c2⟩ := post_track marshal p1 g d n v2 t2
  obtain ⟨a3, b3, c3⟩ := post_track marshal p2 g d n v3 t3
  rw [hs1] at a1 b1 c1
  rw [hs2] at a2 b2 c2
  rw [hs3] at a3 b3 c3
  simp only at a1 b1 c1 a2 b2 c2 a3 b3 c3
  have g1 : (targetParams g (gatewayOf p1 g) d).get? n = some v1 := by
    rw [a1]
    exact get?_set_self _ _ _
  have g2 : (targetParams g (gatewayOf p2 g) d).get? n = some v2 := by
    rw [a2]
    exact get?_set_self _ _ _
  have g3 : (targetParams g (gatewayOf p3 g) d).get? n = some v3 := by
    rw [a3]
    exact get?_set_self _ _ _
  have l1 : logLines e1 = [] := by
    rw [c1]
    cases hget : (targetParams g (gatewayOf p g) d).get? n with
    | none => rfl
    | some w => simp [h0 w hget]
  have l2 : logLines e2 = [changeLine n v1 v2 d] := by
    rw [c2, g1]
    simp [h12]
  have l3 : logLines e3 = [] := by
    rw [c3, g2]
    simp [h23]
  refine ⟨g3, ?_, ?_, g1, g2⟩
  · rw [logLines_append, logLines_append, l1, l2, l3]
    rfl
  · rw [publishCalls_append, publishCalls_append, b1, b2, b3]
    rfl

theorem three_posts_witness :
    "open" ≠ "closed" ∧ "closed" = "closed"
      ∧ (∀ w, (targetParams "gw1" (gatewayOf ⟨5, "home", GoMap.empty⟩ "gw1") "door").get?
            "doorStatus" = some w → w = "open")
      ∧ logLines
          ((Request.track sampleMarshal (post "gw1" "door" "doorStatus" "open" 1)
              ⟨5, "home", GoMap.empty⟩).2
            ++ (Request.track sampleMarshal (post "gw1" "door" "doorStatus" "closed" 2)
              (Request.track sampleMarshal (post "gw1" "door" "doorStatus" "open" 1)
                ⟨5, "home", GoMap.empty⟩).1).2
            ++ (Request.track sampleMarshal (post "gw1" "door" "doorStatus" "closed" 3)
              (Request.track sampleMarshal (post "gw1" "door" "doorStatus" "closed" 2)
                (Request.track sampleMarshal (post "gw1" "door" "doorStatus" "open" 1)
                  ⟨5, "home", GoMap.empty⟩).1).1).2)
          = [changeLine "doorStatus" "open" "closed" "door"] :=
  ⟨by decide, rfl, fun w h => Option.noConfusion (show none = some w from h),
   (three_posts sampleMarshal ⟨5, "home", GoMap.empty⟩ _ _ _ _ _ _ "gw1" "door" "doorStatus"
      "open" "closed" "closed" 1 2 3 (by decide) rfl
      (fun w h => Option.noConfusion (show none = some w from h)) rfl rfl rfl).2.1⟩

theorem gatewayStep_parameters (marshal : GoMap String → List UInt8) (g : String) (gw : LCGW)
    (m : Measurement) :
    (gatewayStep marshal g gw m).Parameters
      = if m.DeviceID = g then m.Parameters.foldl (fun q k => q.set k.Name k.Value) gw.Parameters
        else gw.Parameters := by
  by_cases hd : m.DeviceID = g
  · simp [gatewayStep, measurementStep, hd, parameterLoop_fst]
  · cases hget : gw.Devices.get? m.DeviceID with
    | none => simp [gatewayStep, measurementStep, hd, hget]
    | some d => simp [gatewayStep, measurementStep, hd, hget]

theorem gatewayStep_devices_keys (marshal : GoMap String → List UInt8) (g : String) (gw : LCGW)
    (m : Measurement) (x : String) (hx : x ∈ (gatewayStep marshal g gw m).Devices.keys) :
    x ∈ gw.Devices.keys ∨ (x ≠ g ∧ m.DeviceID = x) := by
  by_cases hd : m.DeviceID = g
  · left
    simpa [gatewayStep, measurementStep, hd] using hx
  · cases hget : gw.Devices.get? m.DeviceID with
    | none =>
      simp only [gatewayStep, measurementStep, hd, hget, ne_eq, not_false_eq_true, if_true,
        mem_keys_set] at hx
      rcases hx with h | h | h
      · exact Or.inr ⟨h ▸ hd, h.symm⟩
      · exact Or.inr ⟨h ▸ hd, h.symm⟩
      · exact Or.inl h
    | some d =>
      simp only [gatewayStep, measurementStep, hd, hget, ne_eq, not_false_eq_true, if_true,
        mem_keys_set] at hx
      rcases hx with h | h
      · exact Or.inr ⟨h ▸ hd, h.symm⟩
      · exact Or.inl h

theorem measurementLoop_own (marshal : GoMap String → List UInt8) (g : String) (gw : LCGW)
    (ms : List Measurement) :
    (ms.foldl (gatewayStep marshal g) gw).Parameters
        = ((ms.filter (fun m => decide (m.DeviceID = g))).flatMap Measurement.Parameters).foldl
            (fun q k => q.set k.Name k.Value) gw.Parameters
      ∧ ∀ x, x ∈ (ms.foldl (gatewayStep marshal g) gw).Devices.keys →
          x ∈ gw.Devices.keys ∨ (x ≠ g ∧ ∃ m ∈ ms, m.DeviceID = x) := by
  induction ms generalizing gw with
  | nil => exact ⟨rfl, fun x hx => Or.inl hx⟩
  | cons m ms ih =>
    obtain ⟨ih1, ih2⟩ := ih (gatewayStep marshal g gw m)
    rw [List.foldl_cons]
    refine ⟨?_, ?_⟩
    · rw [ih1, gatewayStep_parameters]
      by_cases hd : m.DeviceID = g
      · simp [List.filter_cons, hd, List.foldl_append]
      · simp [List.filter_cons, hd]
    · intro x hx
      rcases ih2 x hx with h | ⟨hne, m', hm', hx'⟩
      · rcases gatewayStep_devices_keys marshal g gw m x h with h' | ⟨hne, hmx⟩
        · exact Or.inl h'
        · exact Or.inr ⟨hne, m, List.mem_cons_self _ _, hmx⟩
      · exact Or.inr ⟨hne, m', List.mem_cons_of_mem _ hm', hx'⟩

/-- C4: for every store and every postMeasurements request, the gateway's
own `Parameters` map after `Request.track` is its map before with every
(name, value) pair of the measurements whose device identifier is the gateway
identifier assigned, in order; and every key of the gateway's `Devices` map
after the call was there before or is the device identifier, different from
the gateway identifier, of a measurement of the request. -/
theorem request_track_gateway_own (marshal : GoMap String → List UInt8) (r : Request)
    (p : proxy) (hcmd : r.Command = "postMeasurements") :
    (gatewayOf (Request.track marshal r p).1 r.GatewayID).Parameters
        = ((r.Measurements.filter (fun m => decide (m.DeviceID = r.GatewayID))).flatMap
              Measurement.Parameters).foldl
            (fun q k => q.set k.Name k.Value) (gatewayOf p r.GatewayID).Parameters
      ∧ ∀ x, x ∈ (gatewayOf (Request.track marshal r p).1 r.GatewayID).Devices.keys →
          x ∈ (gatewayOf p r.GatewayID).Devices.keys
            ∨ (x ≠ r.GatewayID ∧ ∃ m ∈ r.Measurements, m.DeviceID = x) := by
  rw [(request_track_gateway marshal r p hcmd).1]
  exact measurementLoop_own marshal r.GatewayID _ r.Measurements

theorem request_track_gateway_own_witness :
    sampleRequest.Command = "postMeasurements"
      ∧ (gatewayOf (Request.track sampleMarshal sampleRequest ⟨5, "home", GoMap.empty⟩).1
          "gw1").Parameters = ⟨[("firmware", "1.2")]⟩
      ∧ (gatewayOf (Request.track sampleMarshal sampleRequest ⟨5, "home", GoMap.empty⟩).1
          "gw1").Devices.keys = ["door"]
      ∧ ∀ x, x ∈ (gatewayOf (Request.track sampleMarshal sampleRequest
              ⟨5, "home", GoMap.empty⟩).1 sampleRequest.GatewayID).Devices.keys →
          x ∈ (gatewayOf ⟨5, "home", GoMap.empty⟩ sampleRequest.GatewayID).Devices.keys
            ∨ (x ≠ sampleRequest.GatewayID ∧ ∃ m ∈ sampleRequest.Measurements, m.DeviceID = x) :=
  ⟨rfl, by decide, by decide,
   (request_track_gateway_own sampleMarshal sampleRequest ⟨5, "home", GoMap.empty⟩ rfl).2⟩

/-! ### Locking -/

/-- C10 fails on `debug`: both `track` methods take the lock first and
release it last, but `debug` encodes the whole store into its reply without
any `Lock` or `Unlock`, as on the store left by three posts. -/
theorem debug_reads_store_unlocked
    (marshalDebug : GoMap LCGW → Int → Except String (List UInt8))
    (marshal : GoMap String → List UInt8) (p : proxy) (n now : Int) (req : Request)
    (resp : Response) :
    (proxy.debug marshalDebug p n).2 = []
      ∧ (proxy.debug marshalDebug p n).1
          = (match marshalDebug p.devices n with
             | Except.error e => { status := 500, body := bytes e ++ [10] }
             | Except.ok b => { status := 200, body := b })
      ∧ (Request.track marshal req p).2.head? = some Effect.Lock
      ∧ (Request.track marshal req p).2.getLast? = some Effect.Unlock
      ∧ (Response.track now resp p).2 = [Effect.Lock, Effect.Unlock]
      ∧ proxy.debug sampleMarshalDebug doorRun.1 3
          = ({ status := 200, body := bytes "gw1:3" }, []) := by
  refine ⟨?_, ?_, ?_, ?_, rfl, by decide⟩
  · unfold proxy.debug
    split <;> rfl
  · unfold proxy.debug
    split <;> rfl
  · simp [Request.track]
  · unfold Request.track
    simp only [List.getLast?_append, List.getLast?_singleton, Option.or_some]

end Homehqtt
